import Mathlib

/-!
Shallow embedding of `src/pdf-sources/clean_extract_jod.py` (Journal of
Discourses PDF-to-Markdown extractor) and proofs about its core pipeline:
page cleaning, hyphenation fixing, discourse-boundary detection, metadata
extraction, paragraph reconstruction and markdown formatting.

Python strings are modelled as Lean `String` (ASCII character classes);
each Python `re` pattern used by the source is implemented as an explicit
matcher over `List Char` that follows Python's leftmost-start /
ordered-alternation / greedy-lazy backtracking semantics for the concrete
pattern.
-/

namespace JoD

/-! ## Character classes (ASCII model of Python `str` semantics) -/

/-- Python whitespace (`\s`, `str.strip` default set), ASCII part. -/
def isWSChar (c : Char) : Bool :=
  c = ' ' ∨ c = '\t' ∨ c = '\n' ∨ c = '\r' ∨ c = '\x0b' ∨ c = '\x0c'

def isUpperChar (c : Char) : Bool := 'A' ≤ c ∧ c ≤ 'Z'

def isLowerChar (c : Char) : Bool := 'a' ≤ c ∧ c ≤ 'z'

def isDigitChar (c : Char) : Bool := '0' ≤ c ∧ c ≤ '9'

def isAlphaChar (c : Char) : Bool := isUpperChar c ∨ isLowerChar c

/-- Python `\w`: word character (ASCII model). -/
def isWordChar (c : Char) : Bool := isAlphaChar c ∨ isDigitChar c ∨ c = '_'

/-! ## List-of-characters utilities -/

/-- Remove leading and trailing characters satisfying `p`. -/
def stripListWith (p : Char → Bool) (cs : List Char) : List Char :=
  ((cs.dropWhile p).reverse.dropWhile p).reverse

/-- Remove trailing characters satisfying `p`. -/
def rstripListWith (p : Char → Bool) (cs : List Char) : List Char :=
  (cs.reverse.dropWhile p).reverse

/-- Does `pat` occur as a prefix of `cs`? -/
def prefixAt (pat cs : List Char) : Bool :=
  match pat, cs with
  | [], _ => true
  | _ :: _, [] => false
  | p :: ps, c :: rest => p = c ∧ prefixAt ps rest

/-- Does `pat` occur as a contiguous substring of `cs`? (Python `in`.) -/
def containsSub (cs pat : List Char) : Bool :=
  match cs with
  | [] => prefixAt pat []
  | _ :: rest => prefixAt pat cs ∨ containsSub rest pat

/-- Python `str.replace(old, new)` on character lists: replace every
non-overlapping occurrence, scanning left to right.  `old` is assumed
non-empty (all call sites in the source pass non-empty literals). -/
def replaceAllGo (old new : List Char) : Nat → List Char → List Char
  | 0, rest => rest
  | _ + 1, [] => []
  | fuel + 1, c :: rest =>
    if old ≠ [] ∧ prefixAt old (c :: rest) then
      new ++ replaceAllGo old new fuel ((c :: rest).drop old.length)
    else
      c :: replaceAllGo old new fuel rest

def replaceAllList (cs old new : List Char) : List Char :=
  replaceAllGo old new cs.length cs

/-! ## Python `str` API on `String` -/

/-- Python `str.strip()` (default whitespace). -/
def pyStrip (s : String) : String := ⟨stripListWith isWSChar s.data⟩

/-- Python `str.rstrip()` (default whitespace). -/
def pyRStripWS (s : String) : String := ⟨rstripListWith isWSChar s.data⟩

/-- Python `str.strip(chars)` with an explicit character set. -/
def pyStripSet (set : List Char) (s : String) : String :=
  ⟨stripListWith (fun c => set.contains c) s.data⟩

/-- Python `str.rstrip(chars)` with an explicit character set. -/
def pyRStripSet (set : List Char) (s : String) : String :=
  ⟨rstripListWith (fun c => set.contains c) s.data⟩

/-- Python `str.isupper()`: at least one cased character and no lowercase
character (ASCII model: cased = letter). -/
def pyIsUpper (s : String) : Bool :=
  s.data.any isAlphaChar ∧ ¬ s.data.any isLowerChar

/-- Python `str.isdigit()` (ASCII model). -/
def pyIsDigit (s : String) : Bool :=
  s.data ≠ [] ∧ s.data.all isDigitChar

/-- Python `sub in s`. -/
def pyContains (s sub : String) : Bool := containsSub s.data sub.data

/-- Python `s.startswith(pre)`. -/
def pyStartsWith (s pre : String) : Bool := prefixAt pre.data s.data

/-- Python `s.replace(old, new)`. -/
def pyReplace (s old new : String) : String :=
  ⟨replaceAllList s.data old.data new.data⟩

/-- Python `' '.join(parts)`. -/
def joinSpace (parts : List String) : String := String.intercalate " " parts

/-! ## Regex building blocks

Each `re` pattern of the source is implemented as an explicit matcher.
`searchFrom` scans candidate start positions left to right (Python
`re.search`), carrying the previous character for `\b` lookaround. -/

/-- Try a position-matcher at every start position, left to right. -/
def searchFrom (m : Option Char → List Char → Bool) : Option Char → List Char → Bool
  | prev, [] => m prev []
  | prev, c :: rest => m prev (c :: rest) ∨ searchFrom m (some c) rest

/-- `\b` before a word character: start of string or previous char not `\w`. -/
def boundaryBefore : Option Char → Bool
  | none => true
  | some c => ¬ isWordChar c

/-- `\b` after a word character: end of string or next char not `\w`. -/
def boundaryAfter : List Char → Bool
  | [] => true
  | c :: _ => ¬ isWordChar c

/-- Consume a literal. -/
def afterLit (lit : String) (cs : List Char) : Option (List Char) :=
  if prefixAt lit.data cs then some (cs.drop lit.data.length) else none

/-- Consume `\s+` (maximal; all patterns below continue with a non-space
token, so maximal munch coincides with backtracking semantics). -/
def afterWSPlus (cs : List Char) : Option (List Char) :=
  let k := (cs.takeWhile isWSChar).length
  if k = 0 then none else some (cs.drop k)

/-- Consume `\s*` (maximal, same remark). -/
def afterWSStar (cs : List Char) : Option (List Char) :=
  some (cs.drop (cs.takeWhile isWSChar).length)

/-- Consume one `[A-Z]`. -/
def afterUpper (cs : List Char) : Option (List Char) :=
  match cs with
  | c :: r => if isUpperChar c then some r else none
  | [] => none

/-- Ordered alternation of literals. -/
def afterAnyLit : List String → List Char → Option (List Char)
  | [], _ => none
  | l :: ls, cs => (afterLit l cs) <|> afterAnyLit ls cs

/-! ## Line classifiers from the source -/

/-- `has_speaker_indicator`: the seven speaker patterns, searched anywhere
in the line.  All patterns start with `\b` before a word character. -/
def hasSpeakerIndicator (line : String) : Bool :=
  searchFrom (fun prev cs =>
    boundaryBefore prev ∧ (
      (afterLit "BY" cs >>= afterWSPlus >>=
        afterAnyLit ["PRESIDENT", "ELDER", "HON.", "ESQ.", "MR.", "PROFESSOR"]).isSome ∨
      (afterLit "PRESIDENT" cs >>= afterWSPlus >>= afterUpper).isSome ∨
      (afterLit "ELDER" cs >>= afterWSPlus >>= afterUpper).isSome ∨
      (afterLit "HON." cs >>= afterWSPlus >>= afterUpper).isSome ∨
      (afterLit "ESQ." cs >>= afterWSStar >>= afterLit ",").isSome ∨
      (afterLit "DELIVERED" cs >>= afterWSPlus >>= afterLit "BY").isSome ∨
      (afterLit "BEFORE" cs >>= afterWSPlus >>= afterLit "THE" >>= afterWSPlus >>=
        afterLit "HON.").isSome))
    none line.data

/-- `has_location_indicator`: the three location patterns. -/
def hasLocationIndicator (line : String) : Bool :=
  searchFrom (fun prev cs =>
    boundaryBefore prev ∧ (
      (afterLit "DELIVERED" cs >>= afterWSPlus >>= afterAnyLit ["IN", "AT"]).isSome ∨
      (afterLit "GREAT" cs >>= afterWSPlus >>= afterLit "SALT" >>= afterWSPlus >>=
        afterLit "LAKE").isSome ∨
      (afterLit "TABERNACLE" cs).isSome))
    none line.data

/-- `re.search(r'\.\s+\d{2,3}$', line)`: the line ends with a period, then
whitespace, then exactly 2 or 3 digits (a running header page number). -/
def headerNumTail (s : String) : Bool :=
  let r := s.data.reverse
  let dg := (r.takeWhile isDigitChar).length
  (dg = 2 ∨ dg = 3) ∧
    (let r2 := r.drop dg
     let w := (r2.takeWhile isWSChar).length
     w ≥ 1 ∧ (r2.drop w).head? = some '.')

/-- `re.match(r'^\d+\s+JOURNAL OF DISCOURSES\.$', line)`. -/
def jodNumberedHeader (cs : List Char) : Bool :=
  let d := (cs.takeWhile isDigitChar).length
  d ≥ 1 ∧
    (let r := cs.drop d
     let w := (r.takeWhile isWSChar).length
     w ≥ 1 ∧ r.drop w = "JOURNAL OF DISCOURSES.".data)

/-- Character class of `^[A-Z\s\-\',]+\.\s+\d+\s*$`. -/
def rhClassChar (c : Char) : Bool :=
  isUpperChar c ∨ isWSChar c ∨ c = '-' ∨ c = '\'' ∨ c = ','

/-- `re.match(r'^[A-Z\s\-\',]+\.\s+\d+\s*$', line)`: running header with a
page number, "TITLE. ###". -/
def runningHeaderShape (cs : List Char) : Bool :=
  let k := (cs.takeWhile rhClassChar).length
  let r0 := cs.drop k
  k ≥ 1 ∧ r0.head? = some '.' ∧
    (let r := r0.tail
     let w := (r.takeWhile isWSChar).length
     w ≥ 1 ∧
       (let r2 := r.drop w
        let dg := (r2.takeWhile isDigitChar).length
        dg ≥ 1 ∧ (r2.drop dg).all isWSChar))

/-! ## `is_page_header_footer` and `clean_page_text` -/

/-- `is_page_header_footer` from the source. -/
def isPageHeaderFooter (line : String) : Bool :=
  let l := pyStrip line
  if l = "" then true
  else if pyIsDigit l then true
  else if jodNumberedHeader l.data then true
  else if l = "JOURNAL OF DISCOURSES." then true
  else if runningHeaderShape l.data then true
  else false

/-- `clean_page_text`: strip each line, keep those that are not headers or
footers. -/
def cleanPageText (pageLines : List String) : List String :=
  (pageLines.map pyStrip).filter (fun l => ¬ isPageHeaderFooter l)

/-! ## `fix_hyphenation` -/

/-- `re.search(r'(\w+)-\s*$', line)`, returning
`line[:match.start()] + match.group(1)` on success: the pattern matches
iff the line, after trailing whitespace is removed, ends in `-` preceded
by a word character; the returned text is everything before that hyphen. -/
def hyphenSplit (line : String) : Option String :=
  let r := rstripListWith isWSChar line.data
  match r.reverse with
  | '-' :: c :: rest => if isWordChar c then some ⟨(c :: rest).reverse⟩ else none
  | _ => none

/-- The merge condition of `fix_hyphenation` for a line and its successor. -/
def hyphenMergeCond (l1 l2 : String) : Bool :=
  (hyphenSplit l1).isSome ∧
    (let nl := pyStrip l2
     nl ≠ "" ∧ isLowerChar (nl.data.headD ' '))

/-- The merged line produced by `fix_hyphenation`. -/
def hyphenMerge (l1 l2 : String) : String :=
  ((hyphenSplit l1).getD "") ++ pyStrip l2

/-- The merge loop of `fix_hyphenation`; the fuel argument strictly
exceeds the number of loop iterations (each consumes at least one
line). -/
def fixHyphenationGo : Nat → List String → List String
  | 0, rest => rest
  | _ + 1, [] => []
  | _ + 1, [l] => [l]
  | fuel + 1, l1 :: l2 :: rest =>
    if hyphenMergeCond l1 l2 then
      hyphenMerge l1 l2 :: fixHyphenationGo fuel rest
    else
      l1 :: fixHyphenationGo fuel (l2 :: rest)

/-- `fix_hyphenation` from the source: single-lookahead merge of
hyphen-split words across a line boundary. -/
def fixHyphenation (lines : List String) : List String :=
  fixHyphenationGo lines.length lines

/-! ## `find_discourse_boundaries`

The scanner state is the cursor `i`, `last_boundary_end` (an `Int`,
initially `-1`), and the accumulated boundary list.  The inner forward
walk is `forwardLoop`; its three exit modes mirror the three ways the
Python `while j < len(lines)` loop ends: an emission inside the all-caps
branch (which also sets `i = j`), hitting a non-uppercase line (the
`else: ... break` branch, emitting or not), and the caps / end-of-input
breaks.  Loops are expressed with an explicit fuel argument; `i` (resp.
`j`) strictly increases per iteration, so `lines.length + 1` fuel always
suffices. -/

structure Boundary where
  start : Nat
  title_end : Nat
  title_lines : List String
  deriving Repr, DecidableEq

/-- `lines[k].strip()` with Python's in-range access (all call sites are
in range; out-of-range defaults to the empty string). -/
def stripAt (lines : List String) (k : Nat) : String := pyStrip (lines.getD k "")

/-- A verification line: contains "REPORTED BY", or both "BEFORE THE
HON." and "JUDGE". -/
def isVerifLine (l : String) : Bool :=
  pyContains l "REPORTED BY" ∨ (pyContains l "BEFORE THE HON." ∧ pyContains l "JUDGE")

/-- The 8-line verification lookahead `for k in range(j, min(j + 8,
len(lines)))`. -/
def verifyWindow (lines : List String) (j : Nat) : Bool :=
  (List.range' j (min (j + 8) lines.length - j)).any fun k => isVerifLine (stripAt lines k)

/-- `line in ["", "AMEN", "AMEN."]`. -/
def isAmenBlank (l : String) : Bool := l = "" ∨ l = "AMEN" ∨ l = "AMEN."

/-- The backward extension (`lookback`) of `find_discourse_boundaries`:
walk backward from `i - 1` collecting uppercase title lines; the first
argument is one past the index to examine (`0` stops). Returns the
collected `title_lines` and the updated `start_idx`. -/
def lookbackLoop (lines : List String) : Nat → List String → Nat → (List String × Nat)
  | 0, tls, s => (tls, s)
  | lb + 1, tls, s =>
    let prev := stripAt lines lb
    if isAmenBlank prev then lookbackLoop lines lb tls s
    else if pyIsUpper prev ∧ prev.length > 3 ∧ ¬ headerNumTail prev then
      if ¬ pyContains prev "AMEN" then lookbackLoop lines lb (prev :: tls) lb
      else lookbackLoop lines lb tls s
    else (tls, s)

/-- Outcome of the forward walk from a candidate at `i`.
`emit b j` is the in-caps-branch emission (Python also sets `i = j`);
`stopNonCaps ob j` is the non-uppercase-line break at `j`, with `ob` the
boundary emitted there if the accumulated block verified; `stopCap j` is
any of the lookahead-cap breaks or running off the end of the input. -/
inductive FwdOut where
  | emit (b : Boundary) (j : Nat)
  | stopNonCaps (emitted : Option Boundary) (j : Nat)
  | stopCap (j : Nat)
  deriving Repr, DecidableEq

/-- The forward walk (`j` loop) of `find_discourse_boundaries`. -/
def forwardLoop (lines : List String) (i startIdx : Nat) :
    Nat → Nat → List String → FwdOut
  | 0, j, _ => .stopCap j
  | fuel + 1, j, tls =>
    if j < lines.length then
      let curr := stripAt lines j
      if curr = "" ∨ headerNumTail curr then
        if j + 1 - i > 10 then .stopCap (j + 1)
        else forwardLoop lines i startIdx fuel (j + 1) tls
      else if pyIsUpper curr then
        let cont := fun (tls' : List String) =>
          if hasSpeakerIndicator curr ∨ hasLocationIndicator curr then
            if verifyWindow lines (j + 1) ∧ tls'.length > 0 then
              FwdOut.emit ⟨startIdx, j + 1, tls'⟩ (j + 1)
            else if j + 1 - i > 15 then FwdOut.stopCap (j + 1)
            else forwardLoop lines i startIdx fuel (j + 1) tls'
          else if j + 1 - i > 15 then FwdOut.stopCap (j + 1)
          else forwardLoop lines i startIdx fuel (j + 1) tls'
        if ¬ tls.contains curr ∧ ¬ pyContains curr "AMEN" then cont (tls ++ [curr])
        else if pyContains curr "AMEN" then forwardLoop lines i startIdx fuel (j + 1) tls
        else cont tls
      else
        if tls.length ≥ 1 ∧ tls.any hasSpeakerIndicator then
          if verifyWindow lines j then .stopNonCaps (some ⟨startIdx, j, tls⟩) j
          else .stopNonCaps none j
        else .stopNonCaps none j
    else .stopCap j

/-- `i = j if j > i else i + 1` (line 206 of the source). -/
def resumeIndex (i j : Nat) : Nat := if j > i then j else i + 1

/-- The outer scan of `find_discourse_boundaries`. -/
def scanLoop (lines : List String) : Nat → Nat → Int → List Boundary → List Boundary
  | 0, _, _, acc => acc
  | fuel + 1, i, lbe, acc =>
    if i < lines.length then
      if (i : Int) < lbe + 3 then scanLoop lines fuel (i + 1) lbe acc
      else
        let line := stripAt lines i
        if isAmenBlank line then scanLoop lines fuel (i + 1) lbe acc
        else if ¬ pyIsUpper line ∨ line.length < 5 then scanLoop lines fuel (i + 1) lbe acc
        else if headerNumTail line then scanLoop lines fuel (i + 1) lbe acc
        else
          let lb := lookbackLoop lines i [] i
          match forwardLoop lines i lb.2 (lines.length + 1) i lb.1 with
          | .emit b j => scanLoop lines fuel (resumeIndex j j) (j : Int) (acc ++ [b])
          | .stopNonCaps ob j =>
            scanLoop lines fuel (resumeIndex i j)
              (match ob with | some _ => (j : Int) | none => lbe) (acc ++ ob.toList)
          | .stopCap j => scanLoop lines fuel (resumeIndex i j) lbe acc
    else acc

/-- `find_discourse_boundaries` from the source. -/
def findDiscourseBoundaries (lines : List String) : List Boundary :=
  scanLoop lines (lines.length + 1) 0 (-1) []

/-! ## Concrete inputs used to test the boundary scanner -/

/-- Two well-formed discourse headings; the second candidate's backward
extension walks into (and past) the first block. -/
def overlapInput : List String :=
  ["pad line one", "pad line two",
   "FIRST TITLE OF DISCOURSE", "BY PRESIDENT JOHN TAYLOR,", "REPORTED BY G. WATT.",
   "SECOND DISCOURSE TITLE", "ANOTHER UPPER LINE HERE",
   "BY PRESIDENT JOHN TAYLOR,", "REPORTED BY G. WATT."]

/-- A candidate all-caps block that is never verified: the forward walk
hits the non-uppercase line at index 4 and the lookahead finds no
verification phrase. -/
def unverifiedInput : List String :=
  ["pad line one", "pad line two",
   "FIRST LINE TITLE", "BY PRESIDENT JOHN TAYLOR,", "lowercase line here"]

/-- One well-formed discourse heading followed by body text. -/
def verifiedInput : List String :=
  ["REMARKS", "BY PRESIDENT BRIGHAM YOUNG,",
   "DELIVERED IN THE TABERNACLE, GREAT SALT LAKE CITY, JANUARY 1ST, 1860.",
   "REPORTED BY G. D. WATT.", "body text here", "more body"]

/-! ## The date pattern `([A-Z]+\s+\d{1,2}(?:TH|ST|ND|RD)?,\s+\d{4})`

`re.search` semantics: leftmost start position; `[A-Z]+`, `\s+` and
`\d{4}` are maximal-munch here (each is followed by a token from a
disjoint character class); `\d{1,2}` tries two digits before one, and the
ordinal suffix is tried before being skipped. -/

/-- One of the ordinal suffixes TH, ST, ND, RD. -/
def ordSuffix (a b : Char) : Bool :=
  (a = 'T' ∧ b = 'H') ∨ (a = 'S' ∧ b = 'T') ∨ (a = 'N' ∧ b = 'D') ∨ (a = 'R' ∧ b = 'D')

/-- Match `,\s+\d{4}` after the (day, optional suffix); `pre` is the
already-matched text. -/
def dateCommaTail (pre rest : List Char) : Option (List Char) :=
  match rest with
  | ',' :: r =>
    let w := r.takeWhile isWSChar
    if w = [] then none
    else
      let r2 := r.drop w.length
      let d4 := r2.take 4
      if d4.length = 4 ∧ d4.all isDigitChar then some (pre ++ [','] ++ w ++ d4)
      else none
  | _ => none

/-- Match `(?:TH|ST|ND|RD)?,\s+\d{4}` (suffix tried greedily first). -/
def dateAfterDay (pre rest : List Char) : Option (List Char) :=
  match rest with
  | a :: b :: r =>
    if ordSuffix a b then (dateCommaTail (pre ++ [a, b]) r) <|> dateCommaTail pre rest
    else dateCommaTail pre rest
  | _ => dateCommaTail pre rest

/-- Match `\d{1,2}...` (two digits tried before one). -/
def dateDigits (pre rest : List Char) : Option (List Char) :=
  match rest with
  | a :: b :: r =>
    if isDigitChar a ∧ isDigitChar b then
      (dateAfterDay (pre ++ [a, b]) r) <|> dateAfterDay (pre ++ [a]) (b :: r)
    else if isDigitChar a then dateAfterDay (pre ++ [a]) (b :: r)
    else none
  | [a] => if isDigitChar a then dateAfterDay (pre ++ [a]) [] else none
  | [] => none

/-- Try the date pattern anchored at this position. -/
def dateMatchAt (cs : List Char) : Option (List Char) :=
  let u := cs.takeWhile isUpperChar
  if u = [] then none
  else
    let r1 := cs.drop u.length
    let w := r1.takeWhile isWSChar
    if w = [] then none
    else dateDigits (u ++ w) (r1.drop w.length)

/-- Leftmost search for the date pattern, returning the matched text. -/
def dateSearchList : List Char → Option (List Char)
  | [] => none
  | c :: r => (dateMatchAt (c :: r)) <|> dateSearchList r

/-- `re.search(date_pattern, s)`, returning `match.group(1)`. -/
def dateSearch (s : String) : Option String :=
  (dateSearchList s.data).map (fun m => (⟨m⟩ : String))

/-! ## `extract_speaker_name`

Three patterns tried in order; lazy groups and greedy whitespace are
realised by ordered alternative lists: `wsPlusAlts` yields the `\s+`
splits longest first, `lazyClassAlts` yields the `[...]+?` splits
shortest first. -/

/-- First success over a list of alternatives. -/
def firstSomeList {α β : Type} (f : α → Option β) : List α → Option β
  | [] => none
  | a :: as => (f a) <|> firstSomeList f as

/-- The `\s+` splits of a suffix, greedy order: (consumed, remaining)
with the consumed run longest first, down to length 1. -/
def wsPlusAlts (cs : List Char) : List (List Char × List Char) :=
  let m := (cs.takeWhile isWSChar).length
  (List.range m).map (fun t => (cs.take (m - t), cs.drop (m - t)))

/-- The `[class]+?` splits of a suffix, lazy order: (captured, remaining)
with the captured run shortest first, from length 1 up to the maximal
run. -/
def lazyClassAlts (cls : Char → Bool) (cs : List Char) : List (List Char × List Char) :=
  let m := (cs.takeWhile cls).length
  (List.range m).map (fun t => (cs.take (t + 1), cs.drop (t + 1)))

/-- Character class `[A-Z\s\.]` of the speaker-name patterns. -/
def spkClass (c : Char) : Bool := isUpperChar c ∨ isWSChar c ∨ c = '.'

/-- The terminator `(?:,|\s+DELIVERED|\s+BEFORE)`, with `|\s+ON` when
`withON` (pattern 1 only).  Only existence matters (not captured). -/
def spkTerminator (withON : Bool) (cs : List Char) : Bool :=
  prefixAt [','] cs ∨
    ((afterWSPlus cs).elim false fun r =>
      prefixAt "DELIVERED".data r ∨ prefixAt "BEFORE".data r ∨
        (withON ∧ prefixAt "ON".data r))

/-- Pattern 1:
`BY\s+((?:PRESIDENT|ELDER|HON\.|ESQ\.|MR\.|PROFESSOR)\s+[A-Z\s\.]+?)(?:,|\s+DELIVERED|\s+BEFORE|\s+ON)`
tried at one start position; returns `group(1)`. -/
def speakerPat1At (cs : List Char) : Option String :=
  (afterLit "BY" cs).bind fun r0 =>
  firstSomeList (fun (p1 : List Char × List Char) =>
    firstSomeList (fun (hon : String) =>
      (afterLit hon p1.2).bind fun r1 =>
      firstSomeList (fun (p2 : List Char × List Char) =>
        firstSomeList (fun (p3 : List Char × List Char) =>
          if spkTerminator true p3.2 then some ⟨hon.data ++ p2.1 ++ p3.1⟩ else none)
          (lazyClassAlts spkClass p2.2))
        (wsPlusAlts r1))
      ["PRESIDENT", "ELDER", "HON.", "ESQ.", "MR.", "PROFESSOR"])
    (wsPlusAlts r0)

/-- Pattern 2:
`((?:PRESIDENT|ELDER|HON\.|ESQ\.)\s+[A-Z\s\.]+?)(?:,|\s+DELIVERED|\s+BEFORE)`. -/
def speakerPat2At (cs : List Char) : Option String :=
  firstSomeList (fun (hon : String) =>
    (afterLit hon cs).bind fun r1 =>
    firstSomeList (fun (p2 : List Char × List Char) =>
      firstSomeList (fun (p3 : List Char × List Char) =>
        if spkTerminator false p3.2 then some ⟨hon.data ++ p2.1 ++ p3.1⟩ else none)
        (lazyClassAlts spkClass p2.2))
      (wsPlusAlts r1))
    ["PRESIDENT", "ELDER", "HON.", "ESQ."]

/-- Pattern 3: `BY\s+([A-Z\s\.]+?)(?:,|\s+DELIVERED|\s+BEFORE)`. -/
def speakerPat3At (cs : List Char) : Option String :=
  (afterLit "BY" cs).bind fun r0 =>
  firstSomeList (fun (p1 : List Char × List Char) =>
    firstSomeList (fun (p3 : List Char × List Char) =>
      if spkTerminator false p3.2 then some ⟨p3.1⟩ else none)
      (lazyClassAlts spkClass p1.2))
    (wsPlusAlts r0)

/-- Leftmost search with an option-valued position matcher. -/
def searchOpt {β : Type} (m : List Char → Option β) : List Char → Option β
  | [] => m []
  | c :: rest => (m (c :: rest)) <|> searchOpt m rest

/-- `extract_speaker_name` from the source: first matching pattern wins;
the captured group is stripped and trailing `,`/`.` removed. -/
def extractSpeakerName (text : String) : String :=
  match (searchOpt speakerPat1At text.data).orElse
      (fun _ => (searchOpt speakerPat2At text.data).orElse
        (fun _ => searchOpt speakerPat3At text.data)) with
  | some g => pyRStripSet [',', '.'] (pyStrip g)
  | none => ""

/-! ## `normalize_speaker_name`: ordered `re.sub` rewrites -/

/-- Generic `re.sub` driver: scan left to right over the subject,
replacing non-overlapping matches; `prev` is the character before the
current position in the original subject (for lookbehind). -/
def reSubGo (m : Option Char → List Char → Option (Nat × List Char)) :
    Nat → Option Char → List Char → List Char
  | 0, _, rest => rest
  | fuel + 1, prev, rest =>
    match rest with
    | [] => []
    | c :: rs =>
      match m prev rest with
      | some (len, rep) =>
        if len = 0 then c :: reSubGo m fuel (some c) rs
        else rep ++ reSubGo m fuel ((rest.take len).getLast?) (rest.drop len)
      | none => c :: reSubGo m fuel (some c) rs

/-- `re.sub(pattern, repl, s)` with a hand-written matcher. -/
def reSub (m : Option Char → List Char → Option (Nat × List Char)) (s : String) : String :=
  ⟨reSubGo m s.data.length none s.data⟩

/-- `(?<=\s)([A-Z])\s+([A-Z]{2,})` → `\1\2`. -/
def spacingSub1 (prev : Option Char) (cs : List Char) : Option (Nat × List Char) :=
  match prev with
  | some p =>
    if isWSChar p then
      match cs with
      | c :: r =>
        if isUpperChar c then
          let w := r.takeWhile isWSChar
          if w = [] then none
          else
            let r2 := r.drop w.length
            let u := r2.takeWhile isUpperChar
            if u.length ≥ 2 then some (1 + w.length + u.length, c :: u) else none
        else none
      | [] => none
    else none
  | none => none

/-- `(?<=\.)(\s*)([A-Z])\s+([A-Z]{2,})` → `\1\2\3`. -/
def spacingSub2 (prev : Option Char) (cs : List Char) : Option (Nat × List Char) :=
  match prev with
  | some p =>
    if p = '.' then
      let g1 := cs.takeWhile isWSChar
      match cs.drop g1.length with
      | c :: r =>
        if isUpperChar c then
          let w := r.takeWhile isWSChar
          if w = [] then none
          else
            let r2 := r.drop w.length
            let u := r2.takeWhile isUpperChar
            if u.length ≥ 2 then
              some (g1.length + 1 + w.length + u.length, g1 ++ c :: u)
            else none
        else none
      | [] => none
    else none
  | none => none

/-- `\bB\.\s*YOUNG\b` → `BRIGHAM YOUNG`. -/
def subBYoung (prev : Option Char) (cs : List Char) : Option (Nat × List Char) :=
  if boundaryBefore prev then
    match cs with
    | 'B' :: '.' :: r =>
      let w := r.takeWhile isWSChar
      let r2 := r.drop w.length
      if prefixAt "YOUNG".data r2 ∧ boundaryAfter (r2.drop 5) then
        some (2 + w.length + 5, "BRIGHAM YOUNG".data)
      else none
    | _ => none
  else none

/-- `H\.\s*C\.\s*KIMBALL` → `HEBER C. KIMBALL` (no word boundaries). -/
def subHCKimball (_ : Option Char) (cs : List Char) : Option (Nat × List Char) :=
  match cs with
  | 'H' :: '.' :: r =>
    let w1 := r.takeWhile isWSChar
    (match r.drop w1.length with
     | 'C' :: '.' :: r2 =>
       let w2 := r2.takeWhile isWSChar
       let r3 := r2.drop w2.length
       if prefixAt "KIMBALL".data r3 then
         some (2 + w1.length + 2 + w2.length + 7, "HEBER C. KIMBALL".data)
       else none
     | _ => none)
  | _ => none

/-- `\bP\.\s*P\.\s*PRATT\b` → `PARLEY P. PRATT`. -/
def subPPPratt (prev : Option Char) (cs : List Char) : Option (Nat × List Char) :=
  if boundaryBefore prev then
    match cs with
    | 'P' :: '.' :: r =>
      let w1 := r.takeWhile isWSChar
      (match r.drop w1.length with
       | 'P' :: '.' :: r2 =>
         let w2 := r2.takeWhile isWSChar
         let r3 := r2.drop w2.length
         if prefixAt "PRATT".data r3 ∧ boundaryAfter (r3.drop 5) then
           some (2 + w1.length + 2 + w2.length + 5, "PARLEY P. PRATT".data)
         else none
       | _ => none)
    | _ => none
  else none

/-- `normalize_speaker_name` from the source: spacing repair, alias
table, honorific unification, in source order. -/
def normalizeSpeakerName (speaker : String) : String :=
  let s1 := reSub spacingSub1 speaker
  let s2 := reSub spacingSub2 s1
  let s3 := reSub subBYoung s2
  let s4 := reSub subHCKimball s3
  let s5 := pyReplace s4 "H. C. KIMBALL" "HEBER C. KIMBALL"
  let s6 := reSub subPPPratt s5
  let s7 := if s6 = "PARLEY P. PRATT" then "ELDER " ++ s6 else s6
  let s8 := pyReplace s7 "PROFESSOR " "ELDER "
  let s9 := pyReplace s8 "MR. " "ELDER "
  let s10 := pyReplace s9 "HON. " "ELDER "
  let s11 := pyReplace s10 "ESQ." "ESQ.,"
  let s12 :=
    if pyContains s11 "ESQ.," then
      let t := pyStrip (pyReplace s11 "ESQ.," "")
      if ¬ pyStartsWith t "ELDER" then "ELDER " ++ t else t
    else s11
  pyStrip s12

/-! ## `extract_location_and_date` -/

/-- Character class `[A-Z\s,\.]` of the location group. -/
def locClassChar (c : Char) : Bool :=
  isUpperChar c ∨ isWSChar c ∨ c = ',' ∨ c = '.'

/-- The lookahead `(?=,\s*[A-Z]+\s+\d|$|REPORTED)` at a position. -/
def locLookaheadOK (q : List Char) : Bool :=
  (q.head? = some ',' ∧
    (let r := q.tail
     let r1 := r.drop (r.takeWhile isWSChar).length
     let u := r1.takeWhile isUpperChar
     u ≠ [] ∧
       (let r2 := r1.drop u.length
        let w := r2.takeWhile isWSChar
        w ≠ [] ∧ ((r2.drop w.length).head?.elim false isDigitChar = true)))) ∨
  q = [] ∨ prefixAt "REPORTED".data q

/-- After one of DELIVERED/AT/IN/BEFORE: match
`\s+(?:THE\s+)?([A-Z\s,\.]+?)(?=...)`, returning the group.  `\s+` splits
are tried greedily, the optional `THE\s+` is tried before being skipped,
the lazy group shortest first. -/
def locGroupAt (cs : List Char) : Option (List Char) :=
  firstSomeList (fun (p1 : List Char × List Char) =>
    ((afterLit "THE" p1.2).bind fun r1 =>
      firstSomeList (fun (p2 : List Char × List Char) =>
        firstSomeList (fun (p3 : List Char × List Char) =>
          if locLookaheadOK p3.2 then some p3.1 else none)
          (lazyClassAlts locClassChar p2.2))
        (wsPlusAlts r1)) <|>
    firstSomeList (fun (p3 : List Char × List Char) =>
      if locLookaheadOK p3.2 then some p3.1 else none)
      (lazyClassAlts locClassChar p1.2))
    (wsPlusAlts cs)

/-- `re.search` for the location pattern
`(?:DELIVERED|AT|IN|BEFORE)\s+(?:THE\s+)?([A-Z\s,\.]+?)(?=,\s*[A-Z]+\s+\d|$|REPORTED)`. -/
def locSearch (cs : List Char) : Option (List Char) :=
  searchOpt (fun s =>
    firstSomeList (fun (kw : String) => (afterLit kw s).bind locGroupAt)
      ["DELIVERED", "AT", "IN", "BEFORE"]) cs

/-- `\s*,\s*\.` → `''` (location cleanup). -/
def locSub1 (_ : Option Char) (cs : List Char) : Option (Nat × List Char) :=
  let w1 := cs.takeWhile isWSChar
  match cs.drop w1.length with
  | ',' :: r =>
    let w2 := r.takeWhile isWSChar
    (match r.drop w2.length with
     | '.' :: _ => some (w1.length + 1 + w2.length + 1, [])
     | _ => none)
  | _ => none

/-- `,\s*,` → `,` (location cleanup). -/
def locSub2 (_ : Option Char) (cs : List Char) : Option (Nat × List Char) :=
  match cs with
  | ',' :: r =>
    let w := r.takeWhile isWSChar
    (match r.drop w.length with
     | ',' :: _ => some (1 + w.length + 1, [','])
     | _ => none)
  | _ => none

/-- `\s+` → `' '` (whitespace collapse). -/
def locSub3 (_ : Option Char) (cs : List Char) : Option (Nat × List Char) :=
  let w := cs.takeWhile isWSChar
  if w = [] then none else some (w.length, [' '])

/-- `extract_location_and_date` from the source. -/
def extractLocationAndDate (text : String) : String × String :=
  let d := dateSearch text
  let text1 := match d with
    | some ds => pyReplace text ds ""
    | none => text
  let loc0 := match locSearch text1.data with
    | some g => pyStrip (⟨g⟩ : String)
    | none => ""
  let loc1 := reSub locSub1 loc0
  let loc2 := reSub locSub2 loc1
  let loc3 := reSub locSub3 loc2
  let loc := pyStripSet [',', '.', ' '] loc3
  (loc, match d with | some ds => ds | none => "")

/-! ## `extract_metadata_from_block` -/

structure Metadata where
  title : String
  speaker : String
  location : String
  date : String
  reporter : String
  deriving Repr, DecidableEq

/-- The mutable state of the classification loop. -/
structure MetaState where
  date : String
  reporter : String
  speakerParts : List String
  locationParts : List String
  titleParts : List String
  deriving Repr, DecidableEq

/-- `block_lines`: the stripped, non-blank lines of
`range(start_idx, min(end_idx + 5, len(lines)))`. -/
def blockLines (lines : List String) (startIdx endIdx : Nat) : List String :=
  ((List.range' startIdx (min (endIdx + 5) lines.length - startIdx)).map
    (fun k => stripAt lines k)).filter (fun l => l ≠ "")

/-- One iteration of the classification loop (a non-reporter line): date
check first, then speaker / location / title-fragment classification. -/
def metaProcessLine (st : MetaState) (line : String) : MetaState :=
  let st1 := match dateSearch line with
    | some d => if st.date = "" then { st with date := d } else st
    | none => st
  if hasSpeakerIndicator line then
    { st1 with speakerParts := st1.speakerParts ++ [line] }
  else if hasLocationIndicator line then
    { st1 with locationParts := st1.locationParts ++ [line] }
  else if st1.date = "" ∧ pyIsUpper line ∧ ¬ pyContains line "BEFORE" then
    if ¬ headerNumTail line ∧ ¬ pyContains line "AMEN" then
      { st1 with titleParts := st1.titleParts ++ [pyRStripSet ['.'] line] }
    else st1
  else st1

/-- The classification loop, short-circuiting at the first line that
starts with "REPORTED BY" (which supplies the reporter). -/
def metaLoop : List String → MetaState → MetaState
  | [], st => st
  | l :: rest, st =>
    if pyStartsWith l "REPORTED BY" then
      { st with reporter := pyRStripSet ['.'] (pyStrip (pyReplace l "REPORTED BY" "")) }
    else metaLoop rest (metaProcessLine st l)

/-- `extract_metadata_from_block` from the source. -/
def extractMetadataFromBlock (lines : List String) (startIdx endIdx : Nat) : Metadata :=
  let st := metaLoop (blockLines lines startIdx endIdx) ⟨"", "", [], [], []⟩
  let speakerText := joinSpace st.speakerParts
  let speaker := extractSpeakerName speakerText
  let speakerF := if speaker ≠ "" then normalizeSpeakerName speaker else ""
  let locationText := joinSpace (st.locationParts ++ st.speakerParts)
  let ld := extractLocationAndDate locationText
  let locationF := if ld.1 ≠ "" then ld.1 else ""
  let dateF := if ld.2 ≠ "" ∧ st.date = "" then ld.2 else st.date
  let titleF := if st.titleParts ≠ [] then joinSpace st.titleParts else ""
  ⟨titleF, speakerF, locationF, dateF, st.reporter⟩

/-! ## Title-echo stripping (`find_all_discourses`, filtering loop)

The source also builds a `title_parts` set before this loop; that set is
never read afterwards, so it is not modelled.  Note the loop's shape: an
uppercase line before content has started falls into the `elif` whose
body is `continue`, and when the `elif` guard is false (the line contains
"REPORTED BY" or "DELIVERED") the loop body simply ends — in both cases
the line is dropped. -/

/-- The filtering loop, with the `started_content` flag. -/
def stripTitleEchoGo (title : String) : List String → Bool → List String
  | [], _ => []
  | l :: rest, started =>
    let s := pyStrip l
    if ¬ pyIsUpper s ∨ started then
      (if s ≠ title ∧ s ≠ title ++ "." then [l] else []) ++ stripTitleEchoGo title rest true
    else if ¬ (pyContains s "REPORTED BY" ∨ pyContains s "DELIVERED") then
      stripTitleEchoGo title rest started
    else
      stripTitleEchoGo title rest started

/-- Title-echo stripping of a record's content lines. -/
def stripTitleEcho (title : String) (contentLines : List String) : List String :=
  stripTitleEchoGo title contentLines false

/-! ## `join_paragraphs` -/

/-- `prev_line.rstrip().endswith(('.', '!', '?', ':', ';'))`. -/
def endsSentence (s : String) : Bool :=
  ((pyRStripWS s).data.getLast?).elim false
    (fun c => c = '.' ∨ c = '!' ∨ c = '?' ∨ c = ':' ∨ c = ';')

/-- `line and line[0].isupper() or line.startswith('"')`. -/
def startsNewPara (l : String) : Bool :=
  (l ≠ "" ∧ isUpperChar (l.data.headD ' ')) ∨ pyStartsWith l "\""

/-- `re.sub(r'(\w+)-\s+(\w+)', r'\1\2', text)`: collapse a mid-paragraph
"word- word" hyphenation artifact. -/
def paraSub (_ : Option Char) (cs : List Char) : Option (Nat × List Char) :=
  let g1 := cs.takeWhile isWordChar
  if g1 = [] then none
  else
    match cs.drop g1.length with
    | '-' :: r =>
      let w := r.takeWhile isWSChar
      if w = [] then none
      else
        let r2 := r.drop w.length
        let g2 := r2.takeWhile isWordChar
        if g2 = [] then none
        else some (g1.length + 1 + w.length + g2.length, g1 ++ g2)
    | _ => none

/-- `' '.join(current)` followed by the hyphen-artifact repair. -/
def paraText (cur : List String) : String := reSub paraSub (joinSpace cur)

/-- One iteration of the paragraph loop: the emitted paragraphs and the
new accumulator. -/
def paraStep (cur : List String) (line : String) : List String × List String :=
  let l := pyStrip line
  if l = "" then
    (if cur ≠ [] then [paraText cur] else [], [])
  else
    match cur with
    | [] => ([], [l])
    | _ =>
      if endsSentence ((cur.getLast?).getD "") ∧ startsNewPara l ∧ cur.length > 2 then
        ([paraText cur], [l])
      else ([], cur ++ [l])

/-- The paragraph loop; flushes a non-empty accumulator at the end. -/
def paraLoop : List String → List String → List String
  | [], cur => if cur ≠ [] then [paraText cur] else []
  | x :: rest, cur => (paraStep cur x).1 ++ paraLoop rest (paraStep cur x).2

/-- The ordered paragraph list of `join_paragraphs`. -/
def paragraphsOf (lines : List String) : List String := paraLoop lines []

/-- `join_paragraphs` from the source. -/
def joinParagraphs (lines : List String) : String :=
  String.intercalate "\n\n" (paragraphsOf lines)

/-- Variant of `paraStep` with the blank-line hard-break branch removed;
stated from the spec to express that the hard break is unreachable when
no input line is blank. -/
def paraStepSoft (cur : List String) (line : String) : List String × List String :=
  let l := pyStrip line
  match cur with
  | [] => ([], [l])
  | _ =>
    if endsSentence ((cur.getLast?).getD "") ∧ startsNewPara l ∧ cur.length > 2 then
      ([paraText cur], [l])
    else ([], cur ++ [l])

/-- Paragraph loop over `paraStepSoft`. -/
def paraLoopSoft : List String → List String → List String
  | [], cur => if cur ≠ [] then [paraText cur] else []
  | x :: rest, cur => (paraStepSoft cur x).1 ++ paraLoopSoft rest (paraStepSoft cur x).2

/-- Soft-break-only paragraph list. -/
def paragraphsSoftOnly (lines : List String) : List String := paraLoopSoft lines []

/-! ## `find_all_discourses` and formatting -/

structure Discourse where
  metadata : Metadata
  content : String
  deriving Repr, DecidableEq

/-- Per-boundary record assembly: content span `[title_end, next start)`
(or to the end of the stream), metadata from the heading span,
title-echo stripping when a title was extracted, then paragraph
reconstruction. -/
def findAllDiscoursesGo (lines : List String) : List Boundary → List Discourse
  | [] => []
  | b :: rest =>
    let contentStart := b.title_end
    let contentEnd := match rest with
      | b2 :: _ => b2.start
      | [] => lines.length
    let metadata := extractMetadataFromBlock lines b.start b.title_end
    let contentLines := (lines.drop contentStart).take (contentEnd - contentStart)
    let contentLines2 :=
      if metadata.title ≠ "" then stripTitleEcho metadata.title contentLines
      else contentLines
    let content := joinParagraphs contentLines2
    ⟨metadata, content⟩ :: findAllDiscoursesGo lines rest

/-- `find_all_discourses` from the source. -/
def findAllDiscourses (lines : List String) : List Discourse :=
  findAllDiscoursesGo lines (findDiscourseBoundaries lines)

/-- One discourse rendered by `format_markdown_with_title`. -/
def formatDiscourse (idx : Nat) (d : Discourse) : String :=
  let meta := d.metadata
  "---\n\n" ++ "## Discourse " ++ toString idx ++ "\n\n" ++
  (if meta.title ≠ "" then "# " ++ meta.title ++ "\n\n" else "") ++
  (if meta.speaker ≠ "" then "**Speaker:** " ++ meta.speaker ++ "  \n" else "") ++
  (if meta.location ≠ "" ∨ meta.date ≠ "" then
    "**Delivered:** " ++
    (if meta.location ≠ "" then meta.location else "") ++
    (if meta.location ≠ "" ∧ meta.date ≠ "" then ", " else "") ++
    (if meta.date ≠ "" then meta.date else "") ++ "  \n"
   else "") ++
  (if meta.reporter ≠ "" then "**Reported by:** " ++ meta.reporter ++ "  \n" else "") ++
  "\n" ++ d.content ++ "\n\n"

/-- Render the records in order, numbering from 1. -/
def formatMarkdownWithTitleGo (idx : Nat) : List Discourse → String
  | [] => ""
  | d :: rest => formatDiscourse idx d ++ formatMarkdownWithTitleGo (idx + 1) rest

/-- `format_markdown_with_title` from the source. -/
def formatMarkdownWithTitle (discourses : List Discourse) (volumeTitle : String) : String :=
  "# " ++ volumeTitle ++ "\n\n" ++ formatMarkdownWithTitleGo 1 discourses

/-- The assembled core pipeline of `main`: per-page cleaning,
concatenation, hyphenation fixing, discourse extraction, formatting. -/
def runPipeline (pages : List (List String)) (volumeTitle : String) : String :=
  formatMarkdownWithTitle
    (findAllDiscourses (fixHyphenation ((pages.map cleanPageText).flatten)))
    volumeTitle

/-- Invariant of the forward walk's outcome, relative to the walk's
current position `j` and the candidate's `start_idx` `s`: an emitted
boundary ends at the reported stop position (which is not before `j`),
starts at `s`, and carries a true verification window at its
`title_end`; a non-caps stop likewise reports a position not before
`j`. -/
def fwdInv (lines : List String) (s j : Nat) : FwdOut → Prop
  | .emit b j' => b.title_end = j' ∧ j ≤ j' ∧ b.start = s ∧ verifyWindow lines j' = true
  | .stopNonCaps ob j' => j ≤ j' ∧ ∀ b, ob = some b →
      b.title_end = j' ∧ b.start = s ∧ verifyWindow lines j' = true
  | .stopCap _ => True

/-! ## Lemmas about the boundary scanner -/

lemma verifyWindow_exists {lines : List String} {j : Nat}
    (h : verifyWindow lines j = true) :
    ∃ k, j ≤ k ∧ k < min (j + 8) lines.length ∧ isVerifLine (stripAt lines k) = true := by
  rcases List.any_eq_true.mp h with ⟨k, hk, hv⟩
  rcases List.mem_range'_1.mp hk with ⟨h1, h2⟩
  exact ⟨k, h1, by omega, hv⟩

lemma fwdInv_mono {lines : List String} {s j j₁ : Nat} {r : FwdOut}
    (hj : j ≤ j₁) (h : fwdInv lines s j₁ r) : fwdInv lines s j r := by
  cases r with
  | emit b j' => exact ⟨h.1, le_trans hj h.2.1, h.2.2⟩
  | stopNonCaps ob j' => exact ⟨le_trans hj h.1, h.2⟩
  | stopCap j' => trivial

lemma forwardLoop_inv (lines : List String) (i s : Nat) :
    ∀ fuel j tls, fwdInv lines s j (forwardLoop lines i s fuel j tls) := by
  intro fuel
  induction fuel with
  | zero => intro j tls; simp [forwardLoop, fwdInv]
  | succ n ih =>
    intro j tls
    simp only [forwardLoop]
    repeat' split
    all_goals first
      | trivial
      | exact fwdInv_mono (Nat.le_succ j) (ih (j + 1) _)
      | (rename_i hv; exact ⟨rfl, Nat.le_succ j, rfl, hv.1⟩)
      | (rename_i hv; exact ⟨le_refl j, fun b hb => by cases hb; exact ⟨rfl, rfl, hv⟩⟩)
      | exact ⟨le_refl j, fun b hb => by cases hb⟩

/-- Every boundary the scan accumulates has a true verification window
anchored at its `title_end`. -/
lemma scanLoop_verified (lines : List String) :
    ∀ fuel i lbe acc,
      (∀ b ∈ acc, ∃ k, b.title_end ≤ k ∧ k < min (b.title_end + 8) lines.length ∧
        isVerifLine (stripAt lines k) = true) →
      ∀ b ∈ scanLoop lines fuel i lbe acc,
        ∃ k, b.title_end ≤ k ∧ k < min (b.title_end + 8) lines.length ∧
          isVerifLine (stripAt lines k) = true := by
  intro fuel
  induction fuel with
  | zero => intro i lbe acc hacc; simpa [scanLoop] using hacc
  | succ n ih =>
    intro i lbe acc hacc
    simp only [scanLoop]
    split
    · split
      · exact ih _ _ _ hacc
      · split
        · exact ih _ _ _ hacc
        · split
          · exact ih _ _ _ hacc
          · split
            · exact ih _ _ _ hacc
            · split
              · rename_i b0 j0 heq
                refine ih _ _ _ ?_
                intro b hb
                rcases List.mem_append.mp hb with hmem | hmem
                · exact hacc b hmem
                · have hinv := forwardLoop_inv lines i (lookbackLoop lines i [] i).2
                    (lines.length + 1) i (lookbackLoop lines i [] i).1
                  rw [heq] at hinv
                  obtain ⟨hte, _, _, hvw⟩ := hinv
                  have hb0 : b = b0 := by simpa using hmem
                  subst hb0
                  rw [hte]
                  exact verifyWindow_exists hvw
              · rename_i ob j0 heq
                have hinv := forwardLoop_inv lines i (lookbackLoop lines i [] i).2
                  (lines.length + 1) i (lookbackLoop lines i [] i).1
                rw [heq] at hinv
                cases ob with
                | none =>
                  simp only [Option.toList_none, List.append_nil]
                  exact ih _ _ _ hacc
                | some b1 =>
                  obtain ⟨_, hsome⟩ := hinv
                  obtain ⟨hte, _, hvw⟩ := hsome b1 rfl
                  simp only [Option.toList_some]
                  refine ih _ _ _ ?_
                  intro b hb
                  rcases List.mem_append.mp hb with hmem | hmem
                  · exact hacc b hmem
                  · have hb1 : b = b1 := by simpa using hmem
                    subst hb1
                    rw [hte]
                    exact verifyWindow_exists hvw
              · exact ih _ _ _ hacc
    · simpa using hacc

/-- Every boundary the scan accumulates after passing the guard window has
`title_end` strictly above all earlier ones. -/
lemma scanLoop_titleEnd_lt (lines : List String) :
    ∀ fuel i lbe acc,
      (∀ b ∈ acc, (b.title_end : Int) ≤ lbe) →
      List.Pairwise (fun a b => a.title_end < b.title_end) acc →
      List.Pairwise (fun a b => a.title_end < b.title_end) (scanLoop lines fuel i lbe acc) := by
  intro fuel
  induction fuel with
  | zero => intro i lbe acc _ hp; simpa [scanLoop] using hp
  | succ n ih =>
    intro i lbe acc hacc hp
    simp only [scanLoop]
    split
    · split
      · exact ih _ _ _ hacc hp
      · rename_i hguard
        split
        · exact ih _ _ _ hacc hp
        · split
          · exact ih _ _ _ hacc hp
          · split
            · exact ih _ _ _ hacc hp
            · split
              · rename_i b0 j0 heq
                have hinv := forwardLoop_inv lines i (lookbackLoop lines i [] i).2
                  (lines.length + 1) i (lookbackLoop lines i [] i).1
                rw [heq] at hinv
                obtain ⟨hte, hij, _, _⟩ := hinv
                have hcast : (i : Int) ≤ (j0 : Int) := by exact_mod_cast hij
                refine ih _ _ _ ?_ ?_
                · intro b hb
                  rcases List.mem_append.mp hb with hmem | hmem
                  · have := hacc b hmem; omega
                  · have hb0 : b = b0 := by simpa using hmem
                    subst hb0; simp [hte]
                · refine List.pairwise_append.mpr ⟨hp, List.pairwise_singleton _ _, ?_⟩
                  intro a ha b hb
                  have hb0 : b = b0 := by simpa using hb
                  subst hb0
                  have h1 := hacc a ha
                  rw [hte]
                  omega
              · rename_i ob j0 heq
                have hinv := forwardLoop_inv lines i (lookbackLoop lines i [] i).2
                  (lines.length + 1) i (lookbackLoop lines i [] i).1
                rw [heq] at hinv
                obtain ⟨hij, hsome⟩ := hinv
                have hcast : (i : Int) ≤ (j0 : Int) := by exact_mod_cast hij
                cases ob with
                | none =>
                  simp only [Option.toList_none, List.append_nil]
                  exact ih _ _ _ hacc hp
                | some b1 =>
                  obtain ⟨hte, _, _⟩ := hsome b1 rfl
                  simp only [Option.toList_some]
                  refine ih _ _ _ ?_ ?_
                  · intro b hb
                    rcases List.mem_append.mp hb with hmem | hmem
                    · have := hacc b hmem; omega
                    · have hb1 : b = b1 := by simpa using hmem
                      subst hb1; simp [hte]
                  · refine List.pairwise_append.mpr ⟨hp, List.pairwise_singleton _ _, ?_⟩
                    intro a ha b hb
                    have hb1 : b = b1 := by simpa using hb
                    subst hb1
                    have h1 := hacc a ha
                    rw [hte]
                    omega
              · exact ih _ _ _ hacc hp
    · simpa using hp

/-! ## Claim theorems: boundary detection (C1, C2, C3) -/

/-- C1: every boundary emitted by `find_discourse_boundaries` is
verified — within the 8-line lookahead window starting at the boundary's
`title_end` (the position just past the matched speaker/location
indicator line, clipped to the input length) some stripped line contains
"REPORTED BY", or contains both "BEFORE THE HON." and "JUDGE".  By
contraposition, an all-caps candidate block with no such line in that
window never yields a boundary. -/
theorem boundary_requires_verification (lines : List String) (b : Boundary)
    (hb : b ∈ findDiscourseBoundaries lines) :
    ∃ k, b.title_end ≤ k ∧ k < min (b.title_end + 8) lines.length ∧
      isVerifLine (stripAt lines k) = true :=
  scanLoop_verified lines _ 0 (-1) [] (by simp) b hb

set_option maxRecDepth 16384 in
/-- Witness for C1 at a concrete input: the single boundary found in
`verifiedInput` (title_end = 3) has its verification line in the
window. -/
theorem boundary_requires_verification_witness :
    ∃ k, (Boundary.mk 0 3
        ["REMARKS", "BY PRESIDENT BRIGHAM YOUNG,",
         "DELIVERED IN THE TABERNACLE, GREAT SALT LAKE CITY, JANUARY 1ST, 1860."]).title_end ≤ k ∧
      k < min ((Boundary.mk 0 3
        ["REMARKS", "BY PRESIDENT BRIGHAM YOUNG,",
         "DELIVERED IN THE TABERNACLE, GREAT SALT LAKE CITY, JANUARY 1ST, 1860."]).title_end + 8)
        verifiedInput.length ∧
      isVerifLine (stripAt verifiedInput k) = true :=
  boundary_requires_verification verifiedInput
    ⟨0, 3, ["REMARKS", "BY PRESIDENT BRIGHAM YOUNG,",
            "DELIVERED IN THE TABERNACLE, GREAT SALT LAKE CITY, JANUARY 1ST, 1860."]⟩
    (by decide)

/-- C2 is false as stated: on `overlapInput` the scanner emits the
boundaries `(start, title_end) = (2, 4)` and `(2, 8)` — the second
candidate's backward extension walks into the first block, so `start`s
are not strictly increasing and `title_end ≤ next start` fails. -/
theorem boundary_overlap_counterexample :
    (findDiscourseBoundaries overlapInput).map (fun b => (b.start, b.title_end)) =
      [(2, 4), (2, 8)] ∧
    ¬ List.Pairwise (fun a b => a.title_end ≤ b.start ∧ a.start < b.start)
      (findDiscourseBoundaries overlapInput) := by
  constructor
  · decide
  · decide

/-- C2 amended: consecutive boundaries need not satisfy
`title_end ≤ next start` and their `start`s need not increase (the
backward extension can reach into the previous block), but the
`title_end` fields are strictly increasing across the emitted list. -/
theorem boundary_title_end_strictly_increasing (lines : List String) :
    List.Pairwise (fun a b => a.title_end < b.title_end)
      (findDiscourseBoundaries lines) :=
  scanLoop_titleEnd_lt lines _ 0 (-1) [] (by simp) List.Pairwise.nil

/-- C3 is false as stated: on `unverifiedInput`, the forward walk from
the candidate at `i = 2` accumulates the uppercase lines 2 and 3, hits
the non-uppercase line at `j = 4`, the 8-line verification lookahead
fails, and the scan resumes at `resumeIndex 2 4 = 4` — the position just
past the whole unverified uppercase block — not at `i + 1 = 3`. -/
theorem resume_position_counterexample :
    forwardLoop unverifiedInput 2 (lookbackLoop unverifiedInput 2 [] 2).2
        (unverifiedInput.length + 1) 2 (lookbackLoop unverifiedInput 2 [] 2).1 =
      .stopNonCaps none 4 ∧
    verifyWindow unverifiedInput 4 = false ∧
    resumeIndex 2 4 = 4 ∧ ¬ resumeIndex 2 4 = 2 + 1 ∧
    findDiscourseBoundaries unverifiedInput = [] := by
  refine ⟨by decide, by decide, by decide, by decide, by decide⟩

/-- C3 amended: when the forward walk entered at a candidate position `i`
(whose stripped line is non-blank, not a running header, and uppercase —
exactly the conditions under which the outer scan starts a walk) breaks
at a non-uppercase line `j`, the scan resumes at `resumeIndex i j = j`,
i.e. one past the scanned uppercase block, which is strictly beyond
`i`. -/
theorem resume_position_after_failed_block (lines : List String)
    (i s fuel j : Nat) (tls : List String) (ob : Option Boundary)
    (hne : stripAt lines i ≠ "")
    (hhd : headerNumTail (stripAt lines i) = false)
    (hup : pyIsUpper (stripAt lines i) = true)
    (h : forwardLoop lines i s fuel i tls = .stopNonCaps ob j) :
    i + 1 ≤ j ∧ resumeIndex i j = j := by
  cases fuel with
  | zero => simp [forwardLoop] at h
  | succ n =>
    have hj : i + 1 ≤ j := by
      simp only [forwardLoop] at h
      split at h
      · repeat' split at h
        all_goals
          first
            | (exact absurd
                (by assumption :
                  stripAt lines i = "" ∨ headerNumTail (stripAt lines i) = true)
                (by simp [hne, hhd]))
            | (exact absurd hup (by assumption))
            | (have hi := forwardLoop_inv lines i s n (i + 1) (tls ++ [stripAt lines i])
               rw [h] at hi
               exact hi.1)
            | (have hi := forwardLoop_inv lines i s n (i + 1) tls
               rw [h] at hi
               exact hi.1)
            | simp at h
      · simp at h
    have hgt : j > i := by omega
    exact ⟨hj, by simp [resumeIndex, hgt]⟩

/-- Witness for the amended C3 at the concrete failing input. -/
theorem resume_position_after_failed_block_witness :
    2 + 1 ≤ 4 ∧ resumeIndex 2 4 = 4 :=
  resume_position_after_failed_block unverifiedInput 2 2 6 4 [] none
    (by decide) (by decide) (by decide) (by decide)

/-! ## Lemmas about metadata extraction (for C5) -/

lemma metaProcessLine_date_set {st : MetaState} {l d : String}
    (h0 : st.date = "") (hd : dateSearch l = some d) :
    (metaProcessLine st l).date = d := by
  simp only [metaProcessLine, hd, h0, if_pos]
  split_ifs <;> rfl

lemma metaProcessLine_date_none {st : MetaState} {l : String}
    (hd : dateSearch l = none) : (metaProcessLine st l).date = st.date := by
  simp only [metaProcessLine, hd]
  split_ifs <;> rfl

lemma metaProcessLine_date_keep {st : MetaState} {l : String}
    (h0 : st.date ≠ "") : (metaProcessLine st l).date = st.date := by
  simp only [metaProcessLine]
  cases hd : dateSearch l with
  | none => split_ifs <;> rfl
  | some d =>
    simp only [if_neg h0]
    split_ifs <;> rfl

lemma foldl_processLine_date_none :
    ∀ (ls : List String) (st : MetaState),
      (∀ x ∈ ls, dateSearch x = none) →
      (List.foldl metaProcessLine st ls).date = st.date := by
  intro ls
  induction ls with
  | nil => intro st _; rfl
  | cons h t ih =>
    intro st hall
    simp only [List.foldl_cons]
    rw [ih _ (fun x hx => hall x (List.mem_cons_of_mem _ hx))]
    exact metaProcessLine_date_none (hall h (List.mem_cons_self _ _))

lemma foldl_processLine_date_keep :
    ∀ (ls : List String) (st : MetaState),
      st.date ≠ "" → (List.foldl metaProcessLine st ls).date = st.date := by
  intro ls
  induction ls with
  | nil => intro st _; rfl
  | cons h t ih =>
    intro st h0
    simp only [List.foldl_cons]
    have hk := @metaProcessLine_date_keep st h h0
    rw [ih _ (by rw [hk]; exact h0), hk]

/-- The date recorded by the classification loop is the date recorded by
folding `metaProcessLine` over the lines before the first
"REPORTED BY"-prefixed line. -/
lemma metaLoop_foldl_date :
    ∀ (ls : List String) (st : MetaState),
      (metaLoop ls st).date =
        (List.foldl metaProcessLine st
          (ls.takeWhile (fun x => ! pyStartsWith x "REPORTED BY"))).date := by
  intro ls
  induction ls with
  | nil => intro st; rfl
  | cons h t ih =>
    intro st
    simp only [metaLoop]
    split
    · rename_i hrep
      simp [List.takeWhile_cons, hrep]
    · rename_i hrep
      have hb : pyStartsWith h "REPORTED BY" = false := by
        revert hrep; cases pyStartsWith h "REPORTED BY" <;> simp
      simp [List.takeWhile_cons, hb, ih]

lemma dateCommaTail_shape {pre rest m : List Char}
    (h : dateCommaTail pre rest = some m) : ∃ t, m = pre ++ t := by
  unfold dateCommaTail at h
  split at h
  · simp only [] at h
    split at h
    · cases h
    · split at h
      · cases h
        exact ⟨_, by rw [List.append_assoc, List.append_assoc]⟩
      · cases h
  · cases h

lemma dateAfterDay_shape {pre rest m : List Char}
    (h : dateAfterDay pre rest = some m) : ∃ t, m = pre ++ t := by
  unfold dateAfterDay at h
  split at h
  · split at h
    · rcases ho : dateCommaTail (pre ++ [_, _]) _ with _ | v
      · rw [ho] at h
        simp only [Option.none_orElse] at h
        exact dateCommaTail_shape h
      · rw [ho] at h
        simp only [Option.some_orElse] at h
        cases h
        rcases dateCommaTail_shape ho with ⟨t, ht⟩
        exact ⟨_, by rw [ht, List.append_assoc]⟩
    · exact dateCommaTail_shape h
  · exact dateCommaTail_shape h

lemma dateDigits_shape {pre rest m : List Char}
    (h : dateDigits pre rest = some m) : ∃ t, m = pre ++ t := by
  unfold dateDigits at h
  split at h
  · split at h
    · rcases ho : dateAfterDay (pre ++ [_, _]) _ with _ | v
      · rw [ho] at h
        simp only [Option.none_orElse] at h
        rcases dateAfterDay_shape h with ⟨t, ht⟩
        exact ⟨_, by rw [ht, List.append_assoc]⟩
      · rw [ho] at h
        simp only [Option.some_orElse] at h
        cases h
        rcases dateAfterDay_shape ho with ⟨t, ht⟩
        exact ⟨_, by rw [ht, List.append_assoc]⟩
    · split at h
      · rcases dateAfterDay_shape h with ⟨t, ht⟩
        exact ⟨_, by rw [ht, List.append_assoc]⟩
      · cases h
  · split at h
    · rcases dateAfterDay_shape h with ⟨t, ht⟩
      exact ⟨_, by rw [ht, List.append_assoc]⟩
    · cases h
  · cases h

lemma dateMatchAt_ne {cs m : List Char} (h : dateMatchAt cs = some m) : m ≠ [] := by
  unfold dateMatchAt at h
  simp only [] at h
  split at h
  · cases h
  · split at h
    · cases h
    · rcases dateDigits_shape h with ⟨t, ht⟩
      subst ht
      rename_i h1 h2
      intro hc
      rcases List.append_eq_nil.mp hc with ⟨hc1, _⟩
      exact h1 (List.append_eq_nil.mp hc1).1

lemma dateSearchList_ne : ∀ {cs m : List Char}, dateSearchList cs = some m → m ≠ [] := by
  intro cs
  induction cs with
  | nil => intro m h; cases h
  | cons c r ih =>
    intro m h
    simp only [dateSearchList] at h
    rcases ho : dateMatchAt (c :: r) with _ | v
    · rw [ho] at h
      simp only [Option.none_orElse] at h
      exact ih h
    · rw [ho] at h
      simp only [Option.some_orElse] at h
      cases h
      exact dateMatchAt_ne ho

lemma dateSearch_ne {l d : String} (h : dateSearch l = some d) : d ≠ "" := by
  unfold dateSearch at h
  rcases ho : dateSearchList l.data with _ | m
  · rw [ho] at h; cases h
  · rw [ho] at h
    simp only [Option.map_some'] at h
    cases h
    have := dateSearchList_ne ho
    intro hc
    apply this
    have : ("" : String) = ⟨[]⟩ := rfl
    rw [this] at hc
    exact congrArg String.data hc

/-! ## Claim theorems: metadata extraction (C5, C6) -/

/-- C5: the date field records the first match of the date pattern
(an uppercase-letter run, whitespace, a 1–2 digit day with optional
TH/ST/ND/RD suffix, a comma, and a 4-digit year) among the block's
scanned lines — those before the first "REPORTED BY"-prefixed line —
and later matches never overwrite it: whenever some scanned line
matches, the recorded date is exactly the first match of the first such
line, regardless of the lines (and of the location/date fallback pass)
that follow. -/
theorem date_first_match_recorded (lines : List String) (s e : Nat)
    (pre post : List String) (l d : String)
    (hsplit : (blockLines lines s e).takeWhile
        (fun x => ! pyStartsWith x "REPORTED BY") = pre ++ l :: post)
    (hpre : ∀ x ∈ pre, dateSearch x = none)
    (hl : dateSearch l = some d) :
    (extractMetadataFromBlock lines s e).date = d := by
  have hdne : d ≠ "" := dateSearch_ne hl
  have hloop : (metaLoop (blockLines lines s e) ⟨"", "", [], [], []⟩).date = d := by
    rw [metaLoop_foldl_date, hsplit, List.foldl_append]
    simp only [List.foldl_cons]
    have h1 : (List.foldl metaProcessLine ⟨"", "", [], [], []⟩ pre).date = "" :=
      foldl_processLine_date_none pre _ hpre
    have h2 := metaProcessLine_date_set h1 hl
    rw [foldl_processLine_date_keep post _ (by rw [h2]; exact hdne), h2]
  unfold extractMetadataFromBlock
  simp only []
  rw [hloop]
  have hcond : ¬ ((extractLocationAndDate (joinSpace
      ((metaLoop (blockLines lines s e) ⟨"", "", [], [], []⟩).locationParts ++
        (metaLoop (blockLines lines s e) ⟨"", "", [], [], []⟩).speakerParts))).2 ≠ "" ∧
      d = "") := fun hc => hdne hc.2
  simp [hcond]

/-- Witness for C5 at a concrete input: in the `verifiedInput` heading
block, the third scanned line is the first bearing a date match, and the
extracted metadata records exactly that match. -/
theorem date_first_match_recorded_witness :
    (extractMetadataFromBlock verifiedInput 0 3).date = "JANUARY 1ST, 1860" :=
  date_first_match_recorded verifiedInput 0 3
    ["REMARKS", "BY PRESIDENT BRIGHAM YOUNG,"] []
    "DELIVERED IN THE TABERNACLE, GREAT SALT LAKE CITY, JANUARY 1ST, 1860."
    "JANUARY 1ST, 1860" (by decide) (by decide) (by decide)

set_option maxRecDepth 65536 in
/-- C6: speaker extraction followed by normalization maps the speaker
text "BY B. YOUNG," to "BRIGHAM YOUNG" and "BY P. P. PRATT," to
"ELDER PARLEY P. PRATT" (the alias table plus the ELDER prefix rule). -/
theorem speaker_alias_normalization :
    normalizeSpeakerName (extractSpeakerName "BY B. YOUNG,") = "BRIGHAM YOUNG" ∧
    normalizeSpeakerName (extractSpeakerName "BY P. P. PRATT,") = "ELDER PARLEY P. PRATT" :=
  ⟨by decide, by decide⟩

/-! ## Lemmas about stripping, hyphenation and paragraphs -/

lemma dropWhile_head_false {p : Char → Bool} :
    ∀ {l : List Char} {c : Char}, (List.dropWhile p l).head? = some c → p c = false := by
  intro l
  induction l with
  | nil => intro c h; simp [List.dropWhile] at h
  | cons x xs ih =>
    intro c h
    rw [List.dropWhile_cons] at h
    split at h
    · exact ih h
    · rename_i hx
      simp only [List.head?_cons, Option.some.injEq] at h
      subst h
      exact Bool.eq_false_iff.mpr hx

lemma dropWhile_eq_self {p : Char → Bool} {l : List Char}
    (h : ∀ c, l.head? = some c → p c = false) : List.dropWhile p l = l := by
  cases l with
  | nil => rfl
  | cons x xs =>
    rw [List.dropWhile_cons, if_neg]
    simp [h x rfl]

lemma dropWhile_dropWhile (p : Char → Bool) (l : List Char) :
    List.dropWhile p (List.dropWhile p l) = List.dropWhile p l :=
  dropWhile_eq_self (fun _ hc => dropWhile_head_false hc)

lemma getLast?_dropWhile (p : Char → Bool) :
    ∀ l : List Char, List.dropWhile p l = [] ∨
      (List.dropWhile p l).getLast? = l.getLast? := by
  intro l
  induction l with
  | nil => exact Or.inl rfl
  | cons x xs ih =>
    rw [List.dropWhile_cons]
    split
    · rcases ih with h | h
      · exact Or.inl h
      · by_cases hxs : List.dropWhile p xs = []
        · exact Or.inl hxs
        · right
          rw [h]
          have hxsne : xs ≠ [] := by
            intro hc
            subst hc
            exact hxs rfl
          cases xs with
          | nil => exact absurd rfl hxsne
          | cons z zs => simp [List.getLast?_cons_cons]
    · exact Or.inr rfl

lemma stripListWith_idem (p : Char → Bool) (cs : List Char) :
    stripListWith p (stripListWith p cs) = stripListWith p cs := by
  unfold stripListWith
  have h1 : List.dropWhile p ((List.dropWhile p ((List.dropWhile p cs).reverse)).reverse) =
      (List.dropWhile p ((List.dropWhile p cs).reverse)).reverse := by
    apply dropWhile_eq_self
    intro c hc
    rw [List.head?_reverse] at hc
    rcases getLast?_dropWhile p ((List.dropWhile p cs).reverse) with hB | hB
    · rw [hB] at hc; cases hc
    · rw [hB, List.getLast?_reverse] at hc
      exact dropWhile_head_false hc
  rw [h1, List.reverse_reverse, dropWhile_dropWhile]

lemma pyStrip_idem (s : String) : pyStrip (pyStrip s) = pyStrip s := by
  unfold pyStrip
  exact congrArg String.mk (stripListWith_idem isWSChar s.data)

lemma mem_dropWhile_of_not {p : Char → Bool} :
    ∀ {l : List Char} {c : Char}, c ∈ l → p c = false → c ∈ List.dropWhile p l := by
  intro l
  induction l with
  | nil => intro c h _; cases h
  | cons x xs ih =>
    intro c h hp
    rw [List.dropWhile_cons]
    rcases List.mem_cons.mp h with rfl | hmem
    · rw [if_neg (by simp [hp])]
      exact List.mem_cons_self _ _
    · split
      · exact ih hmem hp
      · exact List.mem_cons_of_mem _ hmem

lemma strip_ne_of_mem {s : String} {c : Char} (hc : c ∈ s.data)
    (hw : isWSChar c = false) : pyStrip s ≠ "" := by
  intro h
  have hdata : stripListWith isWSChar s.data = [] := congrArg String.data h
  unfold stripListWith at hdata
  have h2 : List.dropWhile isWSChar ((List.dropWhile isWSChar s.data).reverse) = [] :=
    List.reverse_eq_nil_iff.mp hdata
  have h3 := List.dropWhile_eq_nil_iff.mp h2
  have h4 : c ∈ List.dropWhile isWSChar s.data := mem_dropWhile_of_not hc hw
  have h5 := h3 c (List.mem_reverse.mpr h4)
  rw [hw] at h5
  cases h5

lemma wordChar_not_ws {c : Char} (h : isWordChar c = true) : isWSChar c = false := by
  by_contra hws
  have hws' : isWSChar c = true := by revert hws; cases isWSChar c <;> simp
  rcases (by simpa [isWSChar] using hws' :
      c = ' ' ∨ c = '\t' ∨ c = '\n' ∨ c = '\r' ∨ c = '\x0b' ∨ c = '\x0c') with
    rfl | rfl | rfl | rfl | rfl | rfl <;> exact absurd h (by decide)

lemma hyphenSplit_word {l1 p : String} (h : hyphenSplit l1 = some p) :
    ∃ c ∈ p.data, isWordChar c = true := by
  unfold hyphenSplit at h
  simp only [] at h
  split at h
  · rename_i c rest heq
    split at h
    · rename_i hw
      cases h
      exact ⟨c, by simp, hw⟩
    · cases h
  · cases h

lemma hyphenMerge_strip_ne {l1 l2 : String} (h : hyphenMergeCond l1 l2 = true) :
    pyStrip (hyphenMerge l1 l2) ≠ "" := by
  have h1 : (hyphenSplit l1).isSome := by
    have := of_decide_eq_true h
    exact this.1
  rcases Option.isSome_iff_exists.mp h1 with ⟨p, hp⟩
  rcases hyphenSplit_word hp with ⟨c, hc, hw⟩
  apply @strip_ne_of_mem _ c _ (wordChar_not_ws hw)
  unfold hyphenMerge
  rw [hp]
  simp only [Option.getD_some, String.data_append]
  exact List.mem_append.mpr (Or.inl hc)

/-- `stripTitleEchoGo` with `started = true` is exactly the
title-equality filter. -/
lemma stripTitleEchoGo_true (title : String) :
    ∀ ls : List String, stripTitleEchoGo title ls true =
      ls.filter (fun l => pyStrip l ≠ title ∧ pyStrip l ≠ title ++ ".") := by
  intro ls
  induction ls with
  | nil => rfl
  | cons l rest ih =>
    simp only [stripTitleEchoGo, or_true, if_true, List.filter_cons, ih,
      decide_eq_true_eq]
    split_ifs with h1
    · simp
    · simp

/-- `stripTitleEchoGo` with `started = false` drops everything up to the
first line whose stripped form is not uppercase, then filters. -/
lemma stripTitleEchoGo_false (title : String) :
    ∀ ls : List String, stripTitleEchoGo title ls false =
      (ls.drop (ls.findIdx (fun l => ! pyIsUpper (pyStrip l)))).filter
        (fun l => pyStrip l ≠ title ∧ pyStrip l ≠ title ++ ".") := by
  intro ls
  induction ls with
  | nil => rfl
  | cons l rest ih =>
    by_cases hup : pyIsUpper (pyStrip l) = true
    · have hnot : ¬ (¬ pyIsUpper (pyStrip l) = true ∨ False) := by simp [hup]
      simp only [stripTitleEchoGo, List.findIdx_cons, hup, Bool.not_true, cond_false]
      rw [if_neg (by simp [hup])]
      simp only [List.drop_succ_cons]
      split_ifs <;> exact ih
    · have hup' : pyIsUpper (pyStrip l) = false := by
        revert hup; cases pyIsUpper (pyStrip l) <;> simp
      simp only [stripTitleEchoGo, List.findIdx_cons, hup', Bool.not_false, cond_true,
        List.drop_zero]
      rw [if_pos (by simp [hup'])]
      rw [stripTitleEchoGo_true]
      simp only [List.filter_cons, decide_eq_true_eq]
      split_ifs with h1
      · simp
      · simp

/-- On non-blank lines, `paraStep` and its soft-only variant agree. -/
lemma paraStep_eq_soft {cur : List String} {x : String}
    (h : pyStrip x ≠ "") : paraStep cur x = paraStepSoft cur x := by
  unfold paraStep paraStepSoft
  simp only [if_neg h]

lemma paraLoop_eq_soft :
    ∀ (ls : List String) (cur : List String), (∀ l ∈ ls, pyStrip l ≠ "") →
      paraLoop ls cur = paraLoopSoft ls cur := by
  intro ls
  induction ls with
  | nil => intro cur _; rfl
  | cons x rest ih =>
    intro cur hall
    simp only [paraLoop, paraLoopSoft]
    rw [paraStep_eq_soft (hall x (List.mem_cons_self _ _)),
      ih _ (fun l hl => hall l (List.mem_cons_of_mem _ hl))]

/-! ## Claim theorems: title-echo stripping (C4) -/

/-- C4 is false as stated: in the title-echo stripping loop, an
uppercase line containing "REPORTED BY" that precedes the first
non-uppercase line is dropped (the branch distinguishing such lines has
an empty body, so nothing keeps them), and an uppercase line equal to
the extracted title is dropped even after content has started. -/
theorem title_echo_counterexample :
    pyIsUpper (pyStrip "REPORTED BY G. D. WATT.") = true ∧
    pyContains "REPORTED BY G. D. WATT." "REPORTED BY" = true ∧
    stripTitleEcho "REMARKS" ["REPORTED BY G. D. WATT.", "body text"] = ["body text"] ∧
    ¬ "REPORTED BY G. D. WATT." ∈
      stripTitleEcho "REMARKS" ["REPORTED BY G. D. WATT.", "body text"] ∧
    pyIsUpper (pyStrip "REMARKS") = true ∧
    stripTitleEcho "REMARKS" ["intro body line", "REMARKS"] = ["intro body line"] := by
  refine ⟨by decide, by decide, by decide, by decide, by decide, by decide⟩

/-- C4 amended: title-echo stripping drops every line before the first
line whose stripped form is not uppercase (including uppercase lines
containing "REPORTED BY" or "DELIVERED" — the test for those phrases has
no effect), and from that first non-uppercase line on it keeps every
line except those exactly equal to the extracted title, with or without
a trailing period, which are dropped throughout. -/
theorem title_echo_strip_characterization (title : String) (ls : List String) :
    stripTitleEcho title ls =
      (ls.drop (ls.findIdx (fun l => ! pyIsUpper (pyStrip l)))).filter
        (fun l => pyStrip l ≠ title ∧ pyStrip l ≠ title ++ ".") :=
  stripTitleEchoGo_false title ls

/-! ## Claim theorems: hyphenation (C7) -/

/-- C7: the hyphenation pass merges a line with its successor exactly
when the line ends with a word-character run, a hyphen, and optional
trailing whitespace (`hyphenSplit` succeeds) and the successor's first
character after trimming is lowercase (`hyphenMergeCond`); the merge
drops the hyphen and appends the trimmed successor directly
(`hyphenMerge`), consuming both lines; "exam-" followed by "ple text"
becomes the single line "example text". -/
theorem hyphenation_merge_characterization :
    (∀ (fuel : Nat) (l1 l2 : String) (rest : List String),
        hyphenMergeCond l1 l2 = true →
        fixHyphenationGo (fuel + 1) (l1 :: l2 :: rest) =
          hyphenMerge l1 l2 :: fixHyphenationGo fuel rest) ∧
    (∀ (fuel : Nat) (l1 l2 : String) (rest : List String),
        hyphenMergeCond l1 l2 = false →
        fixHyphenationGo (fuel + 1) (l1 :: l2 :: rest) =
          l1 :: fixHyphenationGo fuel (l2 :: rest)) ∧
    hyphenMergeCond "exam-" "ple text" = true ∧
    hyphenMerge "exam-" "ple text" = "example text" ∧
    fixHyphenation ["exam-", "ple text"] = ["example text"] := by
  refine ⟨?_, ?_, by decide, by decide, by decide⟩
  · intro fuel l1 l2 rest h
    simp [fixHyphenationGo, h]
  · intro fuel l1 l2 rest h
    simp [fixHyphenationGo, h]

/-- Witness for C7 at concrete inputs: one merging step and one
non-merging step. -/
theorem hyphenation_merge_characterization_witness :
    fixHyphenationGo (1 + 1) ("exam-" :: "ple text" :: []) =
      hyphenMerge "exam-" "ple text" :: fixHyphenationGo 1 [] ∧
    fixHyphenationGo (0 + 1) ("abc" :: "def" :: []) =
      "abc" :: fixHyphenationGo 0 ["def"] :=
  ⟨hyphenation_merge_characterization.1 1 "exam-" "ple text" [] (by decide),
   hyphenation_merge_characterization.2.1 0 "abc" "def" [] (by decide)⟩

/-! ## Claim theorems: paragraph hard break (C8) -/

/-- C8: a blank line is a hard paragraph break — the paragraphs produced
from the lines before it (with the pending accumulator flushed) and the
paragraphs produced from the lines after it are computed independently
and concatenated, so two non-blank lines separated by a blank line always
land in two distinct paragraphs; on the three-line instance the output is
exactly the two single-line paragraphs, regardless of the punctuation of
the first line or the capitalization of the second. -/
theorem blank_line_hard_break :
    (∀ (xs ys cur : List String),
        paraLoop (xs ++ "" :: ys) cur = paraLoop (xs ++ [""]) cur ++ paraLoop ys []) ∧
    (∀ a b : String, pyStrip a ≠ "" → pyStrip b ≠ "" →
        paragraphsOf [a, "", b] = [paraText [pyStrip a], paraText [pyStrip b]]) := by
  constructor
  · intro xs
    induction xs with
    | nil =>
      intro ys cur
      simp [paraLoop, paraStep, show pyStrip "" = "" from rfl]
    | cons x xs ih =>
      intro ys cur
      simp only [List.cons_append, paraLoop, List.append_eq]
      rw [ih, List.append_assoc]
  · intro a b ha hb
    simp [paragraphsOf, paraLoop, paraStep, ha, hb, show pyStrip "" = "" from rfl]

/-- Witness for C8 at a concrete input: "one." and "two" separated by a
blank line become exactly two paragraphs. -/
theorem blank_line_hard_break_witness :
    paragraphsOf ["one.", "", "two"] = [paraText [pyStrip "one."], paraText [pyStrip "two"]] :=
  blank_line_hard_break.2 "one." "two" (by decide) (by decide)

/-! ## Claim theorems: determinism (C9) -/

/-- C9: the assembled pipeline — page cleaning, hyphenation fixing,
boundary detection, metadata extraction, paragraph reconstruction and
markdown formatting — is a pure function of the input pages: identical
inputs yield identical boundaries, identical discourse records and
byte-identical formatted output. -/
theorem pipeline_deterministic (p p' : List (List String)) (t : String)
    (h : p = p') :
    findDiscourseBoundaries (fixHyphenation ((p.map cleanPageText).flatten)) =
      findDiscourseBoundaries (fixHyphenation ((p'.map cleanPageText).flatten)) ∧
    findAllDiscourses (fixHyphenation ((p.map cleanPageText).flatten)) =
      findAllDiscourses (fixHyphenation ((p'.map cleanPageText).flatten)) ∧
    runPipeline p t = runPipeline p' t := by
  subst h
  exact ⟨rfl, rfl, rfl⟩

/-- Witness for C9 at a concrete input. -/
theorem pipeline_deterministic_witness :
    runPipeline [["some page line"]] "VOLUME TITLE" =
      runPipeline [["some page line"]] "VOLUME TITLE" :=
  (pipeline_deterministic [["some page line"]] [["some page line"]] "VOLUME TITLE" rfl).2.2

/-! ## Claim theorems: no blank lines inside the pipeline (C10) -/

/-- C10: every line returned by `clean_page_text` is non-empty and
whitespace-trimmed (`is_page_header_footer` classifies every
empty-after-trimming line for removal); `fix_hyphenation` preserves
freedom from blank lines; title-echo stripping only keeps input lines;
hence on a blank-free line stream the paragraph loop coincides with the
variant whose blank-line hard-break branch is removed — every split
comes from the soft-break heuristic. -/
theorem pipeline_no_blank_lines :
    (∀ pl : List String, ∀ l ∈ cleanPageText pl, l ≠ "" ∧ pyStrip l = l) ∧
    (∀ l : String, pyStrip l = "" → isPageHeaderFooter l = true) ∧
    (∀ ls : List String, (∀ l ∈ ls, pyStrip l ≠ "") →
        ∀ l ∈ fixHyphenation ls, pyStrip l ≠ "") ∧
    (∀ (t : String) (cs : List String) (l : String), l ∈ stripTitleEcho t cs → l ∈ cs) ∧
    (∀ ls : List String, (∀ l ∈ ls, pyStrip l ≠ "") →
        paragraphsOf ls = paragraphsSoftOnly ls) := by
  refine ⟨?_, ?_, ?_, ?_, ?_⟩
  · intro pl l hl
    unfold cleanPageText at hl
    rcases List.mem_filter.mp hl with ⟨hmem, hkeep⟩
    rcases List.mem_map.mp hmem with ⟨x, _, rfl⟩
    refine ⟨?_, pyStrip_idem x⟩
    intro hempty
    have : isPageHeaderFooter (pyStrip x) = true := by
      unfold isPageHeaderFooter
      rw [show pyStrip (pyStrip x) = "" by rw [pyStrip_idem]; exact hempty]
      simp
    simp [this] at hkeep
  · intro l hl
    unfold isPageHeaderFooter
    rw [hl]
    simp
  · intro ls hall
    unfold fixHyphenation
    generalize ls.length = fuel
    induction fuel generalizing ls with
    | zero => exact fun l hl => hall l hl
    | succ n ih =>
      cases ls with
      | nil => intro l hl; cases hl
      | cons l1 t =>
        cases t with
        | nil =>
          intro l hl
          rcases List.mem_singleton.mp hl with rfl
          exact hall l (List.mem_cons_self _ _)
        | cons l2 rest =>
          simp only [fixHyphenationGo]
          split_ifs with hc
          · intro l hl
            rcases List.mem_cons.mp hl with rfl | hmem
            · exact hyphenMerge_strip_ne hc
            · exact ih _ (fun x hx => hall x (by simp [hx])) l hmem
          · intro l hl
            rcases List.mem_cons.mp hl with rfl | hmem
            · exact hall l (List.mem_cons_self _ _)
            · exact ih _ (fun x hx => hall x (List.mem_cons_of_mem _ hx)) l hmem
  · intro t cs l hl
    unfold stripTitleEcho at hl
    rw [stripTitleEchoGo_false] at hl
    have h1 := List.mem_of_mem_filter hl
    exact List.mem_of_mem_drop h1
  · intro ls hall
    exact paraLoop_eq_soft ls [] hall

/-- Witness for C10 at concrete inputs: a blank-free two-line stream
yields the same paragraphs with and without the hard-break branch, and a
blank-free stream stays blank-free through hyphenation fixing. -/
theorem pipeline_no_blank_lines_witness :
    paragraphsOf ["first line.", "Second line."] =
      paragraphsSoftOnly ["first line.", "Second line."] :=
  pipeline_no_blank_lines.2.2.2.2 ["first line.", "Second line."] (by decide)

end JoD
